import Mathlib

/-!
Verification development for the `vita` personal-productivity application.

We give a shallow embedding of the two pieces of notable logic:

* `social/views.py`: the relationship-strength computation
  (`_compute_strength`, `_update_last_contacted`, the touchpoint
  creation flow);
* `tasks/views.py`: the kanban move operation (`move_task`) and board
  assembly (`_fetch_board_context`).

Dates and timestamps are modelled as integers (days).  The floating-point
expressions of the source (`(days_since / target_days) * 60`,
`target_days * 0.5`, `target_days * 1.5`) are modelled exactly over the
rationals; Python's `int()` on such a value is truncation toward zero,
modelled by `pyInt` below.
-/

namespace Vita

namespace Social

/-- Python's `int()` applied to the exact value of a real-valued
expression: truncation toward zero. -/
def pyInt (q : ℚ) : ℤ := if q < 0 then ⌈q⌉ else ⌊q⌋

/-- The `RelationshipStrength` dataclass of `social/views.py`. -/
structure RelationshipStrength where
  label : String
  score : ℤ
  state : String
  days_since : Option ℤ
  next_due_in : Option ℤ
  last_touchpoint : Option ℤ
  touchpoints_recent : ℕ
  overdue_by : Option ℤ
deriving DecidableEq, Repr

/-- `max(contact.check_in_frequency_days or 30, 1)` from
`_compute_strength`: the `or 30` replaces a falsy (zero) cadence with 30
before taking `max` with 1.  The model field is `ℕ` because
`check_in_frequency_days` is a non-negative integer column. -/
def effTarget (cadence : ℕ) : ℕ := max (if cadence = 0 then 30 else cadence) 1

/-- Lines 147-150 of `social/views.py`:
`freshness_penalty = int((days_since / target_days) * 60)`,
`consistency_boost = min(10, touchpoints_recent * 2)`,
`score = max(5, min(100, 100 - freshness_penalty + consistency_boost))`. -/
def scoreOf (days_since : ℤ) (target : ℕ) (recent : ℕ) : ℤ :=
  max 5 (min 100 (100 - pyInt ((days_since : ℚ) / (target : ℚ) * 60) + min 10 ((recent : ℤ) * 2)))

/-- Lines 151-158 of `social/views.py`: the label/state ladder. -/
def labelState (days_since : ℤ) (target : ℕ) : String × String :=
  if (days_since : ℚ) ≤ (target : ℚ) * 0.5 then ("Strong", "success")
  else if (days_since : ℚ) ≤ (target : ℚ) then ("Steady", "primary")
  else if (days_since : ℚ) ≤ (target : ℚ) * 1.5 then ("Needs touch", "warning")
  else ("At risk", "danger")

/-- `_compute_strength` of `social/views.py`, with the effective last
contact date (the `last_touchpoint` annotation / `last_contacted_at` /
aggregate fallback chain of lines 133-137) supplied as `lastDate`. -/
def computeStrength (cadence : ℕ) (lastDate : Option ℤ) (recent : ℕ) (today : ℤ) :
    RelationshipStrength :=
  let target := effTarget cadence
  match lastDate with
  | none =>
      { label := "Cold start", score := 25, state := "danger", days_since := none
        next_due_in := some (target : ℤ), last_touchpoint := none
        touchpoints_recent := recent, overdue_by := none }
  | some d =>
      let ds : ℤ := today - d
      let nextDue : ℤ := (target : ℤ) - ds
      { label := (labelState ds target).1, score := scoreOf ds target recent
        state := (labelState ds target).2, days_since := some ds
        next_due_in := some nextDue, last_touchpoint := some d
        touchpoints_recent := recent
        overdue_by := if nextDue < 0 then some |nextDue| else none }

/-- The score formula exactly as the specification states it, with
mathematical floor (rounding toward negative infinity). -/
def specScore (days_since : ℤ) (target : ℕ) (recent : ℕ) : ℤ :=
  max 5 (min 100 (100 - ⌊(days_since : ℚ) / (target : ℚ) * 60⌋ + min 10 ((recent : ℤ) * 2)))

/-- The label/state classification exactly as the claim states it, with
explicit disjoint ranges and inclusive upper boundaries. -/
def specLabelState (days_since : ℤ) (target : ℕ) : String × String :=
  if (days_since : ℚ) ≤ (target : ℚ) * 0.5 then ("Strong", "success")
  else if (target : ℚ) * 0.5 < (days_since : ℚ) ∧ (days_since : ℚ) ≤ (target : ℚ) then
    ("Steady", "primary")
  else if (target : ℚ) < (days_since : ℚ) ∧ (days_since : ℚ) ≤ (target : ℚ) * 1.5 then
    ("Needs touch", "warning")
  else ("At risk", "danger")

end Social

end Vita

namespace Vita

namespace Social

/-- C1: for a non-null last contact date, the computed score agrees with
the spec's clamp/floor formula for every integer `days_since`, every
`target ≥ 1` and every recent-touchpoint count; moreover the score field
of `computeStrength` is exactly `scoreOf` at the derived inputs. -/
theorem score_matches_spec_formula (ds : ℤ) (t r : ℕ) (h : 1 ≤ t) :
    scoreOf ds t r = specScore ds t r ∧
      ∀ (c r' : ℕ) (d today : ℤ),
        (computeStrength c (some d) r' today).score = scoreOf (today - d) (effTarget c) r' := by
  constructor
  · unfold scoreOf specScore pyInt
    by_cases hneg : ((ds : ℚ) / (t : ℚ) * 60) < 0
    · rw [if_pos hneg]
      have hc : ⌈(ds : ℚ) / (t : ℚ) * 60⌉ ≤ 0 := by
        rw [Int.ceil_le]
        exact_mod_cast hneg.le
      have hf : ⌊(ds : ℚ) / (t : ℚ) * 60⌋ ≤ 0 :=
        le_trans (Int.floor_le_ceil _) hc
      have hb : 0 ≤ min 10 ((r : ℤ) * 2) := le_min (by norm_num) (by positivity)
      omega
    · rw [if_neg hneg]
  · intro c r' d today
    rfl

/-- Witness for `score_matches_spec_formula` at the spec's end-to-end
example inputs (days_since 45, target 30, one recent touchpoint). -/
theorem score_matches_spec_formula_witness :
    1 ≤ 30 ∧ scoreOf 45 30 1 = specScore 45 30 1 ∧ scoreOf 45 30 1 = 12 :=
  ⟨by decide, (score_matches_spec_formula 45 30 1 (by decide)).1,
    by norm_num [scoreOf, pyInt]⟩

/-- C6: the label/state ladder agrees with the spec's disjoint ranges
with inclusive upper boundaries, and the stated boundary instances hold:
`days_since = 0` is Strong, `days_since = target` is Steady, and
`days_since = 31` with target 30 is Needs touch; the label and state of
`computeStrength` are exactly those of `labelState`. -/
theorem label_matches_spec_ranges (t : ℕ) (h : 1 ≤ t) :
    (∀ (ds : ℤ) (t' : ℕ), labelState ds t' = specLabelState ds t') ∧
      labelState 0 t = ("Strong", "success") ∧
      labelState (t : ℤ) t = ("Steady", "primary") ∧
      labelState 31 30 = ("Needs touch", "warning") ∧
      (∀ (c r : ℕ) (d today : ℤ),
        (computeStrength c (some d) r today).label = (labelState (today - d) (effTarget c)).1 ∧
          (computeStrength c (some d) r today).state = (labelState (today - d) (effTarget c)).2) := by
  refine ⟨?_, ?_, ?_, ?_, fun c r d today => ⟨rfl, rfl⟩⟩
  · intro ds t'
    by_cases h1 : (ds : ℚ) ≤ (t' : ℚ) * 0.5
    · simp [labelState, specLabelState, h1]
    · by_cases h2 : (ds : ℚ) ≤ (t' : ℚ)
      · have h1' : (t' : ℚ) * 0.5 < (ds : ℚ) := not_le.mp h1
        simp [labelState, specLabelState, h1, h2, h1']
      · by_cases h3 : (ds : ℚ) ≤ (t' : ℚ) * 1.5
        · have h2' : (t' : ℚ) < (ds : ℚ) := not_le.mp h2
          simp [labelState, specLabelState, h1, h2, h3, h2']
        · simp [labelState, specLabelState, h1, h2, h3]
  · have h1 : (0 : ℚ) ≤ (t : ℚ) * 0.5 := by positivity
    simp [labelState, h1]
  · have ht : (1 : ℚ) ≤ (t : ℚ) := by exact_mod_cast h
    have h1 : ¬ ((t : ℚ) ≤ (t : ℚ) * 0.5) := by nlinarith
    simp [labelState, Int.cast_natCast, h1]
  · unfold labelState
    norm_num

/-- Witness for `label_matches_spec_ranges` at target 30. -/
theorem label_matches_spec_ranges_witness :
    labelState 0 30 = ("Strong", "success") ∧
      labelState 30 30 = ("Steady", "primary") ∧
      labelState 31 30 = ("Needs touch", "warning") :=
  ⟨(label_matches_spec_ranges 30 (by decide)).2.1,
    (label_matches_spec_ranges 30 (by decide)).2.2.1,
    (label_matches_spec_ranges 30 (by decide)).2.2.2.1⟩

/-- C7: `next_due_in = target - days_since` and `overdue_by` is the
absolute value of a negative `next_due_in` (else null); the spec's
end-to-end example (cadence 30, last contact 45 days ago, one recent
touchpoint) yields exactly the stated record. -/
theorem due_and_overdue (c r : ℕ) (d today : ℤ) :
    (computeStrength c (some d) r today).next_due_in =
        some ((effTarget c : ℤ) - (today - d)) ∧
      (computeStrength c (some d) r today).overdue_by =
        (if (effTarget c : ℤ) - (today - d) < 0 then
          some |(effTarget c : ℤ) - (today - d)| else none) ∧
      computeStrength 30 (some 0) 1 45 =
        { label := "Needs touch", score := 12, state := "warning", days_since := some 45
          next_due_in := some (-15), last_touchpoint := some 0, touchpoints_recent := 1
          overdue_by := some 15 } := by
  refine ⟨rfl, rfl, ?_⟩
  norm_num [computeStrength, scoreOf, labelState, pyInt, effTarget]

/-- C8 counterexample: with cadence 0 the code's effective target is 30
(the `or 30` fallback of line 132), not `max(0, 1) = 1`; observably the
cold-start `next_due_in` for a zero cadence is 30, not 1. -/
theorem zero_cadence_counterexample :
    effTarget 0 = 30 ∧ effTarget 0 ≠ max 0 1 ∧
      (computeStrength 0 none 0 0).next_due_in = some 30 ∧
      (computeStrength 0 none 0 0).next_due_in ≠ some 1 :=
  ⟨rfl, by decide, rfl, by decide⟩

/-- C8 amended: the effective target equals `max(cadence, 1)` only for
cadence ≥ 1 (where it is just the cadence); a zero cadence falls back to
30, so a cold-start contact with zero cadence gets `next_due_in = 30`. -/
theorem effective_target_defended :
    (∀ c : ℕ, 1 ≤ c → effTarget c = max c 1) ∧ effTarget 0 = 30 ∧
      ∀ (r : ℕ) (today : ℤ), (computeStrength 0 none r today).next_due_in = some 30 := by
  refine ⟨?_, rfl, fun r today => rfl⟩
  intro c hc
  unfold effTarget
  rw [if_neg (by omega : ¬ c = 0)]

/-- Witness for `effective_target_defended`. -/
theorem effective_target_defended_witness : effTarget 5 = max 5 1 :=
  effective_target_defended.1 5 (by decide)

/-- Per-contact state touched by the touchpoint creation flow: the cached
`last_contacted_at` column and the contact's recorded touchpoint dates. -/
structure ContactState where
  last_contacted_at : Option ℤ
  touchpoints : List ℤ
deriving DecidableEq, Repr

/-- `_update_last_contacted` of `social/views.py`: set the cache when it
is unset or older than the new touchpoint's date. -/
def updateLastContacted (last : Option ℤ) (d : ℤ) : Option ℤ :=
  match last with
  | none => some d
  | some m => if m < d then some d else some m

/-- The `create_touchpoint` success path: persist the touchpoint, then
call `_update_last_contacted` on its contact. -/
def recordTouchpoint (s : ContactState) (d : ℤ) : ContactState :=
  { last_contacted_at := updateLastContacted s.last_contacted_at d
    touchpoints := s.touchpoints ++ [d] }

/-- A freshly created contact: no touchpoints, null `last_contacted_at`. -/
def initialContact : ContactState := ⟨none, []⟩

/-- The cache invariant preserved by every recording step. -/
def CacheInv (s : ContactState) : Prop :=
  (s.last_contacted_at = none ∧ s.touchpoints = []) ∨
    ∃ m, s.last_contacted_at = some m ∧ m ∈ s.touchpoints ∧ ∀ d ∈ s.touchpoints, d ≤ m

theorem cacheInv_record {s : ContactState} (h : CacheInv s) (d : ℤ) :
    CacheInv (recordTouchpoint s d) := by
  rcases h with ⟨h1, h2⟩ | ⟨m, hm, hmem, hub⟩
  · right
    refine ⟨d, ?_, ?_, ?_⟩
    · simp [recordTouchpoint, updateLastContacted, h1]
    · simp [recordTouchpoint]
    · intro x hx
      simp [recordTouchpoint, h2] at hx
      omega
  · right
    by_cases hlt : m < d
    · refine ⟨d, ?_, ?_, ?_⟩
      · simp [recordTouchpoint, updateLastContacted, hm, hlt]
      · simp [recordTouchpoint]
      · intro x hx
        simp [recordTouchpoint] at hx
        rcases hx with hx | hx
        · exact le_trans (hub x hx) hlt.le
        · omega
    · refine ⟨m, ?_, ?_, ?_⟩
      · simp [recordTouchpoint, updateLastContacted, hm, hlt]
      · simp [recordTouchpoint, hmem]
      · intro x hx
        simp [recordTouchpoint] at hx
        rcases hx with hx | hx
        · exact hub x hx
        · omega

theorem cacheInv_foldl (ds : List ℤ) :
    ∀ s : ContactState, CacheInv s → CacheInv (ds.foldl recordTouchpoint s) := by
  induction ds with
  | nil => exact fun s h => h
  | cons d ds ih => exact fun s h => ih _ (cacheInv_record h d)

theorem touchpoints_foldl (ds : List ℤ) :
    ∀ s : ContactState, (ds.foldl recordTouchpoint s).touchpoints = s.touchpoints ++ ds := by
  induction ds with
  | nil => simp
  | cons d ds ih =>
      intro s
      simp [List.foldl_cons, ih, recordTouchpoint]

/-- C9: after any sequence of touchpoint recordings through the creation
flow, the cached `last_contacted_at` dominates every recorded touchpoint
date, and equals the maximum recorded date once any touchpoint exists. -/
theorem last_contacted_cache_invariant (ds : List ℤ) :
    ((ds.foldl recordTouchpoint initialContact).touchpoints = ds) ∧
      (∀ d ∈ ds, ∃ m,
        (ds.foldl recordTouchpoint initialContact).last_contacted_at = some m ∧ d ≤ m) ∧
      (ds ≠ [] → ∃ m,
        (ds.foldl recordTouchpoint initialContact).last_contacted_at = some m ∧
          m ∈ ds ∧ ∀ d ∈ ds, d ≤ m) := by
  have htp : (ds.foldl recordTouchpoint initialContact).touchpoints = ds := by
    simpa [initialContact] using touchpoints_foldl ds initialContact
  have hinv : CacheInv (ds.foldl recordTouchpoint initialContact) :=
    cacheInv_foldl ds initialContact (Or.inl ⟨rfl, rfl⟩)
  refine ⟨htp, ?_, ?_⟩
  · intro d hd
    rcases hinv with ⟨_, h2⟩ | ⟨m, hm, _, hub⟩
    · rw [htp] at h2
      subst h2
      simp at hd
    · exact ⟨m, hm, hub d (by rwa [htp])⟩
  · intro hne
    rcases hinv with ⟨_, h2⟩ | ⟨m, hm, hmem, hub⟩
    · rw [htp] at h2
      exact absurd h2 hne
    · rw [htp] at hmem hub
      exact ⟨m, hm, hmem, hub⟩

/-- Witness for `last_contacted_cache_invariant` on the recording
sequence [3, 7, 5]. -/
theorem last_contacted_cache_invariant_witness :
    ((([3, 7, 5] : List ℤ).foldl recordTouchpoint initialContact).touchpoints = [3, 7, 5]) ∧
      (∀ d ∈ ([3, 7, 5] : List ℤ), ∃ m,
        (([3, 7, 5] : List ℤ).foldl recordTouchpoint initialContact).last_contacted_at =
          some m ∧ d ≤ m) ∧
      (([3, 7, 5] : List ℤ) ≠ [] → ∃ m,
        (([3, 7, 5] : List ℤ).foldl recordTouchpoint initialContact).last_contacted_at =
          some m ∧ m ∈ ([3, 7, 5] : List ℤ) ∧ ∀ d ∈ ([3, 7, 5] : List ℤ), d ≤ m) :=
  last_contacted_cache_invariant [3, 7, 5]

end Social

namespace Tasks

/-- `Task.Status` of `tasks/models.py`. -/
inductive TaskStatus
  | todo
  | in_progress
  | blocked
  | cancelled
  | done
deriving DecidableEq, Repr

/-- The string value of each status (Django `TextChoices`). -/
def statusCode : TaskStatus → String
  | .todo => "todo"
  | .in_progress => "in_progress"
  | .blocked => "blocked"
  | .cancelled => "cancelled"
  | .done => "done"

/-- Decode a POSTed status string back to a status. -/
def codeToStatus (s : String) : Option TaskStatus :=
  if s = "todo" then some .todo
  else if s = "in_progress" then some .in_progress
  else if s = "blocked" then some .blocked
  else if s = "cancelled" then some .cancelled
  else if s = "done" then some .done
  else none

/-- `BOARD_STATUSES` of `tasks/views.py`: the four board-visible statuses
with their column labels, in board order. -/
def BOARD_STATUSES : List (TaskStatus × String) :=
  [(.todo, "To do"), (.in_progress, "In progress"), (.blocked, "Blocked"), (.done, "Recently done")]

/-- The board-visible statuses, in board order. -/
def boardStatusList : List TaskStatus := BOARD_STATUSES.map Prod.fst

/-- `valid_statuses = {code for code, _ in BOARD_STATUSES}` as strings. -/
def boardCodes : List String := BOARD_STATUSES.map fun p => statusCode p.1

/-- The fields of a `Task` row touched or preserved by the move and board
logic.  Timestamps and dates are integers; nullable columns are `Option`. -/
structure Task where
  id : ℕ
  title : String
  description : String
  status : TaskStatus
  priority : ℕ
  energy : String
  due_at : Option ℤ
  estimate_minutes : Option ℕ
  completed_at : Option ℤ
  order : ℕ
  created_at : ℤ
  updated_at : ℤ
deriving DecidableEq, Repr

/-- The two POST fields read by `move_task`; a missing field is `none`. -/
structure MoveRequest where
  task_id : Option ℕ
  status : Option String
deriving DecidableEq, Repr

/-- Outcome of `move_task`: client error (400 with the board re-rendered),
not-found (404 from `get_object_or_404`), or success. -/
inductive MoveOutcome
  | invalid
  | notFound
  | ok (id : ℕ)
deriving DecidableEq, Repr

/-- `Task.objects.filter(status=status).aggregate(Max("order")) or 0`:
the maximum `order` in the column, with `None` (empty column) and `0`
both collapsing to 0. -/
def colMaxOrder (tasks : List Task) (st : TaskStatus) : ℕ :=
  (tasks.filter fun t => decide (t.status = st)).foldl (fun m t => max m t.order) 0

/-- The field updates of an accepted move (lines 112-118 of
`tasks/views.py`): new status, appended order, `completed_at` stamped
only when moving to done with a previously null `completed_at`, and the
`auto_now` updated-at timestamp. -/
def applyMove (t : Task) (st : TaskStatus) (newOrder : ℕ) (now : ℤ) : Task :=
  { t with
    status := st
    order := newOrder
    completed_at :=
      if st = TaskStatus.done ∧ t.completed_at = none then some now else t.completed_at
    updated_at := now }

/-- `move_task` of `tasks/views.py`, returning the outcome and the
resulting task table. -/
def moveTask (tasks : List Task) (req : MoveRequest) (now : ℤ) : MoveOutcome × List Task :=
  match req.task_id, req.status with
  | some tid, some s =>
    if s = "" ∨ s ∉ boardCodes then (.invalid, tasks)
    else
      match tasks.find? fun t => t.id == tid with
      | none => (.notFound, tasks)
      | some t =>
        match codeToStatus s with
        | some st =>
          (.ok tid,
            tasks.map fun u =>
              if u.id == tid then applyMove t st (colMaxOrder tasks st + 1) now else u)
        | none => (.invalid, tasks)
  | _, _ => (.invalid, tasks)

theorem codeToStatus_statusCode (st : TaskStatus) : codeToStatus (statusCode st) = some st := by
  cases st <;> decide

theorem boardCodes_decode (s : String) (hs : s ∈ boardCodes) :
    ∃ st, codeToStatus s = some st ∧ statusCode st = s := by
  fin_cases hs
  · exact ⟨.todo, by decide, rfl⟩
  · exact ⟨.in_progress, by decide, rfl⟩
  · exact ⟨.blocked, by decide, rfl⟩
  · exact ⟨.done, by decide, rfl⟩

theorem statusCode_valid (st : TaskStatus) (hst : st ∈ boardStatusList) :
    ¬ (statusCode st = "" ∨ statusCode st ∉ boardCodes) := by
  fin_cases hst <;> decide

/-- On an accepted move, `move_task` succeeds and rewrites exactly the
matched row with `applyMove`. -/
theorem moveTask_accepted (tasks : List Task) (tid : ℕ) (st : TaskStatus) (now : ℤ) (t : Task)
    (hst : st ∈ boardStatusList)
    (hfind : tasks.find? (fun u => u.id == tid) = some t) :
    moveTask tasks ⟨some tid, some (statusCode st)⟩ now =
      (.ok tid,
        tasks.map fun u =>
          if u.id == tid then applyMove t st (colMaxOrder tasks st + 1) now else u) := by
  simp only [moveTask, if_neg (statusCode_valid st hst), hfind, codeToStatus_statusCode]

/-- Updating the row found by `find?` is found again by the same key. -/
theorem find?_map_update (l : List Task) (tid : ℕ) (v t : Task) (hv : v.id = tid)
    (h : l.find? (fun u => u.id == tid) = some t) :
    (l.map fun u => if u.id == tid then v else u).find? (fun u => u.id == tid) = some v := by
  induction l with
  | nil => simp at h
  | cons a l ih =>
    by_cases ha : a.id = tid
    · simp [List.find?_cons, ha, hv]
    · have hb : (a.id == tid) = false := by simp [ha]
      rw [List.find?_cons_of_neg _ (by simp [ha])] at h
      simp only [List.map_cons, hb, if_neg, Bool.false_eq_true, not_false_eq_true, ite_false]
      rw [List.find?_cons_of_neg _ (by simp [ha])]
      exact ih h

theorem colMax_le_aux (l : List Task) :
    ∀ b : ℕ,
      b ≤ l.foldl (fun m t => max m t.order) b ∧
        ∀ u ∈ l, u.order ≤ l.foldl (fun m t => max m t.order) b := by
  induction l with
  | nil => simp
  | cons a l ih =>
    intro b
    refine ⟨le_trans (le_max_left b a.order) (ih (max b a.order)).1, ?_⟩
    intro u hu
    rcases List.mem_cons.mp hu with rfl | hu
    · exact le_trans (le_max_right b u.order) (ih (max b u.order)).1
    · exact (ih (max b a.order)).2 u hu

theorem colMax_attained_aux (l : List Task) :
    ∀ b : ℕ,
      l.foldl (fun m t => max m t.order) b = b ∨
        ∃ u ∈ l, l.foldl (fun m t => max m t.order) b = u.order := by
  induction l with
  | nil => exact fun b => Or.inl rfl
  | cons a l ih =>
    intro b
    rcases ih (max b a.order) with h | ⟨u, hu, h⟩
    · by_cases hba : a.order ≤ b
      · left
        rw [List.foldl_cons, h, max_eq_left hba]
      · right
        exact ⟨a, List.mem_cons_self a l, by
          rw [List.foldl_cons, h, max_eq_right (le_of_not_le hba)]⟩
    · right
      exact ⟨u, List.mem_cons_of_mem a hu, h⟩

/-- `colMaxOrder` is the maximum order in the column: an upper bound,
attained whenever the column is non-empty, and 0 on an empty column. -/
theorem colMaxOrder_is_max (tasks : List Task) (st : TaskStatus) :
    (∀ u ∈ tasks, u.status = st → u.order ≤ colMaxOrder tasks st) ∧
      ((∃ u ∈ tasks, u.status = st) →
        ∃ u ∈ tasks, u.status = st ∧ u.order = colMaxOrder tasks st) ∧
      ((∀ u ∈ tasks, u.status ≠ st) → colMaxOrder tasks st = 0) := by
  refine ⟨?_, ?_, ?_⟩
  · intro u hu hust
    have hmem : u ∈ tasks.filter fun t => decide (t.status = st) := by
      simp [List.mem_filter, hu, hust]
    exact (colMax_le_aux _ 0).2 u hmem
  · rintro ⟨u, hu, hust⟩
    have hmem : u ∈ tasks.filter fun t => decide (t.status = st) := by
      simp [List.mem_filter, hu, hust]
    rcases colMax_attained_aux (tasks.filter fun t => decide (t.status = st)) 0 with h | ⟨v, hv, h⟩
    · refine ⟨u, hu, hust, ?_⟩
      have := (colMax_le_aux (tasks.filter fun t => decide (t.status = st)) 0).2 u hmem
      unfold colMaxOrder
      omega
    · obtain ⟨hvmem, hvst⟩ := List.mem_filter.mp hv
      exact ⟨v, hvmem, by simpa using hvst, h.symm⟩
  · intro h
    have : tasks.filter (fun t => decide (t.status = st)) = [] := by
      rw [List.filter_eq_nil_iff]
      intro u hu
      simpa using h u hu
    unfold colMaxOrder
    rw [this]
    rfl

/-- C2: an accepted move to a board-visible status sets the task's status
to the new status and its order to the column maximum plus one, where the
column maximum is an upper bound of the orders currently in the new
column, attained when the column is non-empty, and 0 when it is empty. -/
theorem move_appends_to_column (tasks : List Task) (tid : ℕ) (st : TaskStatus) (now : ℤ)
    (t : Task) (hst : st ∈ boardStatusList)
    (hfind : tasks.find? (fun u => u.id == tid) = some t) :
    ∃ tasks',
      moveTask tasks ⟨some tid, some (statusCode st)⟩ now = (.ok tid, tasks') ∧
        tasks'.find? (fun u => u.id == tid) =
          some (applyMove t st (colMaxOrder tasks st + 1) now) ∧
        (applyMove t st (colMaxOrder tasks st + 1) now).status = st ∧
        (applyMove t st (colMaxOrder tasks st + 1) now).order = colMaxOrder tasks st + 1 ∧
        (∀ u ∈ tasks, u.status = st → u.order ≤ colMaxOrder tasks st) ∧
        ((∃ u ∈ tasks, u.status = st) →
          ∃ u ∈ tasks, u.status = st ∧ u.order = colMaxOrder tasks st) ∧
        ((∀ u ∈ tasks, u.status ≠ st) → colMaxOrder tasks st = 0) := by
  have hid : (applyMove t st (colMaxOrder tasks st + 1) now).id = tid := by
    have := List.find?_some hfind
    simp only [applyMove]
    simpa using this
  refine ⟨_, moveTask_accepted tasks tid st now t hst hfind, ?_, rfl, rfl,
    (colMaxOrder_is_max tasks st).1, (colMaxOrder_is_max tasks st).2.1,
    (colMaxOrder_is_max tasks st).2.2⟩
  exact find?_map_update tasks tid _ t hid hfind

/-- Board with a todo column holding orders {3, 3, 7} plus a blocked
task, used as a concrete instance. -/
def exTaskA : Task := ⟨1, "a", "", .todo, 2, "MEDIUM", none, none, none, 3, 0, 0⟩

def exTaskB : Task := ⟨2, "b", "", .todo, 2, "MEDIUM", none, none, none, 3, 0, 0⟩

def exTaskC : Task := ⟨3, "c", "", .todo, 2, "MEDIUM", none, none, none, 7, 0, 0⟩

def exTaskD : Task := ⟨9, "d", "", .blocked, 2, "MEDIUM", none, none, none, 1, 0, 0⟩

def exBoard : List Task := [exTaskA, exTaskB, exTaskC, exTaskD]

/-- Witness for `move_appends_to_column`: moving task 9 into the todo
column whose orders are {3, 3, 7} assigns order 8. -/
theorem move_appends_to_column_witness :
    TaskStatus.todo ∈ boardStatusList ∧
      colMaxOrder exBoard TaskStatus.todo = 7 ∧
      (moveTask exBoard ⟨some 9, some (statusCode TaskStatus.todo)⟩ 0).2.find?
          (fun u => u.id == 9) =
        some (applyMove exTaskD TaskStatus.todo 8 0) := by
  obtain ⟨tasks', h1, h2, -⟩ :=
    move_appends_to_column exBoard 9 TaskStatus.todo 0 exTaskD (by decide) (by decide)
  refine ⟨by decide, by decide, ?_⟩
  rw [h1]
  exact h2

/-- C3: `move_task` rejects as a client error exactly when the task id is
absent, the status is absent, or the status is outside the four
board-visible statuses (in particular "cancelled"); a rejected move
leaves the task table unchanged. -/
theorem move_rejects_invalid (tasks : List Task) (req : MoveRequest) (now : ℤ) :
    ((moveTask tasks req now).1 = .invalid ↔
        req.task_id = none ∨ req.status = none ∨
          ∃ s, req.status = some s ∧ s ∉ boardCodes) ∧
      ((moveTask tasks req now).1 = .invalid → (moveTask tasks req now).2 = tasks) ∧
      (∀ tid : ℕ, (moveTask tasks ⟨some tid, some "cancelled"⟩ now).1 = .invalid) := by
  refine ⟨?_, ?_, ?_⟩
  · rcases req with ⟨tid?, s?⟩
    cases tid? with
    | none => simp [moveTask]
    | some tid =>
      cases s? with
      | none => simp [moveTask]
      | some s =>
        by_cases hs : s ∈ boardCodes
        · have hne : ¬ (s = "" ∨ s ∉ boardCodes) := by
            push_neg
            refine ⟨?_, hs⟩
            rintro rfl
            revert hs
            decide
          have hse : s ≠ "" := fun h => hne (Or.inl h)
          cases hfind : tasks.find? (fun u => u.id == tid) with
          | none => simp [moveTask, if_neg hne, hfind, hs, hse]
          | some t =>
            obtain ⟨st, hdec, -⟩ := boardCodes_decode s hs
            simp [moveTask, if_neg hne, hfind, hdec, hs, hse]
        · have hcond : s = "" ∨ s ∉ boardCodes := Or.inr hs
          simp [moveTask, if_pos hcond, hs]
  · rcases req with ⟨tid?, s?⟩
    cases tid? with
    | none => simp [moveTask]
    | some tid =>
      cases s? with
      | none => simp [moveTask]
      | some s =>
        by_cases hcond : s = "" ∨ s ∉ boardCodes
        · simp [moveTask, if_pos hcond]
        · cases hfind : tasks.find? (fun u => u.id == tid) with
          | none => simp [moveTask, if_neg hcond, hfind]
          | some t =>
            have hs : s ∈ boardCodes := by
              push_neg at hcond
              exact hcond.2
            obtain ⟨st, hdec, -⟩ := boardCodes_decode s hs
            simp [moveTask, if_neg hcond, hfind, hdec]
  · intro tid
    have hmem : "cancelled" ∉ boardCodes := by decide
    simp [moveTask, hmem]

/-- Witness for `move_rejects_invalid`: a "cancelled" move is rejected
and changes nothing. -/
theorem move_rejects_invalid_witness :
    (moveTask exBoard ⟨some 1, some "cancelled"⟩ 0).1 = MoveOutcome.invalid ∧
      (moveTask exBoard ⟨some 1, some "cancelled"⟩ 0).2 = exBoard := by
  have h := move_rejects_invalid exBoard ⟨some 1, some "cancelled"⟩ 0
  have hinv := h.2.2 1
  exact ⟨hinv, h.2.1 hinv⟩

/-- C4: on an accepted move, `completed_at` is stamped with the current
time exactly when the new status is done and the task's `completed_at`
was null; a non-null `completed_at` is never overwritten. -/
theorem move_stamps_completed_at (tasks : List Task) (tid : ℕ) (st : TaskStatus) (now : ℤ)
    (t : Task) (hst : st ∈ boardStatusList)
    (hfind : tasks.find? (fun u => u.id == tid) = some t) :
    ∃ tasks' t',
      moveTask tasks ⟨some tid, some (statusCode st)⟩ now = (.ok tid, tasks') ∧
        tasks'.find? (fun u => u.id == tid) = some t' ∧
        t'.completed_at =
          (if st = TaskStatus.done ∧ t.completed_at = none then some now
            else t.completed_at) ∧
        (t.completed_at ≠ none → t'.completed_at = t.completed_at) := by
  have hid : (applyMove t st (colMaxOrder tasks st + 1) now).id = tid := by
    have := List.find?_some hfind
    simp only [applyMove]
    simpa using this
  refine ⟨_, applyMove t st (colMaxOrder tasks st + 1) now,
    moveTask_accepted tasks tid st now t hst hfind,
    find?_map_update tasks tid _ t hid hfind, rfl, ?_⟩
  intro hne
  simp only [applyMove]
  rw [if_neg]
  simp [hne]

/-- Task already done with a recorded completion time. -/
def exTaskDone : Task := ⟨4, "e", "", .done, 2, "MEDIUM", none, none, some 5, 1, 0, 0⟩

/-- Witness for `move_stamps_completed_at`: moving an already-completed
task to done again does not overwrite its `completed_at`. -/
theorem move_stamps_completed_at_witness :
    ∃ tasks' t',
      moveTask [exTaskDone] ⟨some 4, some (statusCode TaskStatus.done)⟩ 9 =
          (.ok 4, tasks') ∧
        tasks'.find? (fun u => u.id == 4) = some t' ∧
        t'.completed_at =
          (if TaskStatus.done = TaskStatus.done ∧ exTaskDone.completed_at = none then some 9
            else exTaskDone.completed_at) ∧
        (exTaskDone.completed_at ≠ none → t'.completed_at = exTaskDone.completed_at) :=
  move_stamps_completed_at [exTaskDone] 4 TaskStatus.done 9 exTaskDone (by decide) (by decide)

/-- C10: an accepted move never clears a non-null `completed_at` (in
particular when a done task moves back to a non-done column) and modifies
only the status, order, updated-at and (when stamped) completed-at fields
of the moved task, leaving every other field and every other task
unchanged. -/
theorem move_frame_effect (tasks : List Task) (tid : ℕ) (st : TaskStatus) (now : ℤ)
    (t : Task) (hst : st ∈ boardStatusList)
    (hfind : tasks.find? (fun u => u.id == tid) = some t) :
    ∃ tasks' t',
      moveTask tasks ⟨some tid, some (statusCode st)⟩ now = (.ok tid, tasks') ∧
        tasks'.find? (fun u => u.id == tid) = some t' ∧
        t'.id = t.id ∧ t'.title = t.title ∧ t'.description = t.description ∧
        t'.priority = t.priority ∧ t'.energy = t.energy ∧ t'.due_at = t.due_at ∧
        t'.estimate_minutes = t.estimate_minutes ∧ t'.created_at = t.created_at ∧
        (t.completed_at ≠ none → t'.completed_at = t.completed_at) ∧
        t'.status = st ∧ t'.order = colMaxOrder tasks st + 1 ∧ t'.updated_at = now ∧
        (∀ u ∈ tasks, u.id ≠ tid → u ∈ tasks') := by
  have hid : (applyMove t st (colMaxOrder tasks st + 1) now).id = tid := by
    have := List.find?_some hfind
    simp only [applyMove]
    simpa using this
  refine ⟨_, applyMove t st (colMaxOrder tasks st + 1) now,
    moveTask_accepted tasks tid st now t hst hfind,
    find?_map_update tasks tid _ t hid hfind, rfl, rfl, rfl, rfl, rfl, rfl, rfl, rfl, ?_,
    rfl, rfl, rfl, ?_⟩
  · intro hne
    simp only [applyMove]
    rw [if_neg]
    simp [hne]
  · intro u hu hne
    have : (u.id == tid) = false := by simp [hne]
    have hmem := List.mem_map_of_mem
      (f := fun u => if u.id == tid then applyMove t st (colMaxOrder tasks st + 1) now else u) hu
    simpa [this] using hmem

/-- Witness for `move_frame_effect`: moving the completed task back to
todo keeps `completed_at = some 5` and all untouched fields. -/
theorem move_frame_effect_witness :
    ∃ tasks' t',
      moveTask [exTaskDone] ⟨some 4, some (statusCode TaskStatus.todo)⟩ 9 =
          (.ok 4, tasks') ∧
        tasks'.find? (fun u => u.id == 4) = some t' ∧
        t'.id = exTaskDone.id ∧ t'.title = exTaskDone.title ∧
        t'.description = exTaskDone.description ∧
        t'.priority = exTaskDone.priority ∧ t'.energy = exTaskDone.energy ∧
        t'.due_at = exTaskDone.due_at ∧
        t'.estimate_minutes = exTaskDone.estimate_minutes ∧
        t'.created_at = exTaskDone.created_at ∧
        (exTaskDone.completed_at ≠ none → t'.completed_at = exTaskDone.completed_at) ∧
        t'.status = TaskStatus.todo ∧
        t'.order = colMaxOrder [exTaskDone] TaskStatus.todo + 1 ∧ t'.updated_at = 9 ∧
        (∀ u ∈ [exTaskDone], u.id ≠ 4 → u ∈ tasks') :=
  move_frame_effect [exTaskDone] 4 TaskStatus.todo 9 exTaskDone (by decide) (by decide)

/-- `completed_at__gte=cutoff` with SQL NULL semantics: a null
`completed_at` never satisfies the comparison. -/
def withinRetention (now : ℤ) : Option ℤ → Prop
  | some c => now - 14 ≤ c
  | none => False

instance (now : ℤ) (o : Option ℤ) : Decidable (withinRetention now o) :=
  match o with
  | some c => inferInstanceAs (Decidable (now - 14 ≤ c))
  | none => inferInstanceAs (Decidable False)

/-- The read-side filter of `_fetch_board_context` (lines 171-177 of
`tasks/views.py`): board-visible status, and for done tasks a
`completed_at` within the fixed 14-day retention window. -/
def Visible (now : ℤ) (t : Task) : Prop :=
  t.status ∈ boardStatusList ∧
    ((t.status = TaskStatus.done ∧ withinRetention now t.completed_at) ∨
      t.status ≠ TaskStatus.done)

instance (now : ℤ) (t : Task) : Decidable (Visible now t) :=
  inferInstanceAs (Decidable (_ ∧ _))

/-- The composite ordering key
`order_by("order", "-priority", "due_at", "-created_at")`: order
ascending, priority descending, due date ascending (nulls first),
created-at descending. -/
abbrev BoardKey := Lex (ℕ × Lex ((OrderDual ℕ) × Lex ((WithBot ℤ) × OrderDual ℤ)))

def dueKey : Option ℤ → WithBot ℤ
  | none => ⊥
  | some d => (d : WithBot ℤ)

def boardKey (t : Task) : BoardKey :=
  toLex (t.order,
    toLex (OrderDual.toDual t.priority,
      toLex (dueKey t.due_at, OrderDual.toDual t.created_at)))

/-- The board ordering relation on tasks. -/
def boardLE (a b : Task) : Prop := boardKey a ≤ boardKey b

instance : DecidableRel boardLE :=
  fun a b => inferInstanceAs (Decidable (boardKey a ≤ boardKey b))

instance : IsTotal Task boardLE := ⟨fun a b => le_total (boardKey a) (boardKey b)⟩

instance : IsTrans Task boardLE := ⟨fun _ _ _ h1 h2 => le_trans h1 h2⟩

/-- One rendered `{code, label, tasks}` column. -/
structure BoardColumn where
  code : TaskStatus
  label : String
  tasks : List Task

/-- `_fetch_board_context` of `tasks/views.py`: filter to visible tasks,
sort by the composite key, group per status (the dict-append grouping of
the source keeps one bucket per board status in iteration order, so each
bucket is the status-filter of the sorted sequence), and present the
columns in the fixed `BOARD_STATUSES` order. -/
def fetchBoardContext (tasks : List Task) (now : ℤ) : List BoardColumn :=
  let sortedTasks := List.insertionSort boardLE (tasks.filter fun t => decide (Visible now t))
  BOARD_STATUSES.map fun p => ⟨p.1, p.2, sortedTasks.filter fun t => decide (t.status = p.1)⟩

/-- A done task completed 20 days before time 100. -/
def exDone20 : Task := ⟨5, "f", "", .done, 2, "MEDIUM", none, none, some 80, 1, 0, 0⟩

/-- A done task completed 10 days before time 100. -/
def exDone10 : Task := ⟨6, "g", "", .done, 2, "MEDIUM", none, none, some 90, 1, 0, 0⟩

/-- C5: the assembled board has columns in the fixed order
[todo, in_progress, blocked, done]; a task appears on the board exactly
when it is stored and visible (board-visible status, and not-done or
completed within the 14-day window); every column holds only tasks of its
status, sorted by (order asc, priority desc, due date asc, created-at
desc); a done task completed 20 days ago is excluded and one completed 10
days ago is included. -/
theorem board_assembly (tasks : List Task) (now : ℤ) :
    ((fetchBoardContext tasks now).map BoardColumn.code =
        [TaskStatus.todo, TaskStatus.in_progress, TaskStatus.blocked, TaskStatus.done]) ∧
      (∀ t, (∃ c ∈ fetchBoardContext tasks now, t ∈ c.tasks) ↔ t ∈ tasks ∧ Visible now t) ∧
      (∀ c ∈ fetchBoardContext tasks now, ∀ t ∈ c.tasks, t.status = c.code) ∧
      (∀ c ∈ fetchBoardContext tasks now, List.Sorted boardLE c.tasks) ∧
      (∀ t, Visible now t ↔
        t.status ∈ boardStatusList ∧
          (t.status ≠ TaskStatus.done ∨ withinRetention now t.completed_at)) ∧
      ¬ Visible 100 exDone20 ∧ Visible 100 exDone10 := by
  refine ⟨by simp [fetchBoardContext, BOARD_STATUSES], ?_, ?_, ?_, ?_, by decide, by decide⟩
  · intro t
    constructor
    · rintro ⟨c, hc, htc⟩
      simp only [fetchBoardContext, List.mem_map] at hc
      obtain ⟨p, hp, rfl⟩ := hc
      rw [List.mem_filter] at htc
      have hmem := (List.perm_insertionSort boardLE _).mem_iff.mp htc.1
      rw [List.mem_filter] at hmem
      exact ⟨hmem.1, of_decide_eq_true hmem.2⟩
    · rintro ⟨htasks, hvis⟩
      have hstat : t.status ∈ boardStatusList := hvis.1
      simp only [boardStatusList, List.mem_map] at hstat
      obtain ⟨p, hp, hps⟩ := hstat
      refine ⟨⟨p.1, p.2,
        (List.insertionSort boardLE (tasks.filter fun u => decide (Visible now u))).filter
          fun u => decide (u.status = p.1)⟩, ?_, ?_⟩
      · simp only [fetchBoardContext, List.mem_map]
        exact ⟨p, hp, rfl⟩
      · rw [List.mem_filter]
        refine ⟨?_, ?_⟩
        · exact (List.perm_insertionSort boardLE _).mem_iff.mpr
            (List.mem_filter.mpr ⟨htasks, decide_eq_true hvis⟩)
        · exact decide_eq_true hps.symm
  · intro c hc t htc
    simp only [fetchBoardContext, List.mem_map] at hc
    obtain ⟨p, hp, rfl⟩ := hc
    rw [List.mem_filter] at htc
    exact of_decide_eq_true htc.2
  · intro c hc
    simp only [fetchBoardContext, List.mem_map] at hc
    obtain ⟨p, hp, rfl⟩ := hc
    exact (List.sorted_insertionSort boardLE _).filter _
  · intro t
    unfold Visible
    tauto

/-- Witness for `board_assembly` on a two-task store at time 100: the
20-day-old done task is excluded, the 10-day-old one is included. -/
theorem board_assembly_witness :
    ((fetchBoardContext [exDone20, exDone10] 100).map BoardColumn.code =
        [TaskStatus.todo, TaskStatus.in_progress, TaskStatus.blocked, TaskStatus.done]) ∧
      ¬ (∃ c ∈ fetchBoardContext [exDone20, exDone10] 100, exDone20 ∈ c.tasks) ∧
      (∃ c ∈ fetchBoardContext [exDone20, exDone10] 100, exDone10 ∈ c.tasks) := by
  refine ⟨(board_assembly [exDone20, exDone10] 100).1, ?_, ?_⟩
  · intro h
    exact absurd (((board_assembly [exDone20, exDone10] 100).2.1 exDone20).mp h)
      (by decide)
  · exact ((board_assembly [exDone20, exDone10] 100).2.1 exDone10).mpr
      ⟨by decide, by decide⟩

end Tasks

end Vita
